import Mathlib

/-!
Verification of the RisingWave value-encoding codec
(`src/common/src/util/value_encoding/mod.rs`).

The codec converts an optional scalar value (`Datum`) to and from a raw byte
sequence.  Byte buffers are modelled as `List Nat` (each entry a byte value);
multi-byte integers are little-endian.  Rust's three observable outcomes are
modelled explicitly:

* `ok`        - the function returned `Ok`;
* `err`       - the function returned a recoverable `Err` (RwError);
* `panicked`  - the function panicked.  The `bytes` crate `Buf` getters
  (`get_i16_le`, `get_u8`, `copy_to_slice`, ...) panic when fewer bytes remain
  than requested, itertools' `zip_eq` panics when the two iterators have
  different lengths, and the codec's catch-all match arms call `panic!`
  directly; all three are modelled as the `panicked` outcome.
-/

namespace ValueEncoding

/-- Little-endian encoding of `v` into exactly `n` bytes
(the `bytes` crate `put_uN_le` writers; excess bits are truncated,
matching Rust `as uN` casts). -/
def natToLe : Nat → Nat → List Nat
  | 0, _ => []
  | n + 1, v => v % 256 :: natToLe n (v / 256)

/-- Little-endian value of a byte list (what the `get_uN_le` readers compute). -/
def leNat : List Nat → Nat
  | [] => 0
  | b :: rest => b + 256 * leNat rest

/-- Two's-complement unsigned image of a signed integer (Rust `iN as uN`). -/
def toUnsigned (w : Nat) (i : Int) : Nat := (i % (2 ^ w : Int)).toNat

/-- Two's-complement signed reading of a `w`-bit unsigned value
(Rust `uN as iN`). -/
def toSigned (w : Nat) (v : Nat) : Int :=
  if v % 2 ^ w < 2 ^ (w - 1) then ((v % 2 ^ w : Nat) : Int)
  else ((v % 2 ^ w : Nat) : Int) - 2 ^ w

/-- Error values returned by the codec (`value_encoding::error` plus the
wrapper reconstruction errors; the prost decode error is converted into the
same error universe by the `?` operator in `deserialize_struct`). -/
inductive ValueEncodingError where
  /-- The length-prefixed text payload is not valid UTF-8; carries the bytes. -/
  | InvalidUtf8 (bytes : List Nat)
  /-- A boolean byte other than 0 or 1; carries the offending byte. -/
  | InvalidBoolEncoding (value : Nat)
  /-- Out-of-range day count for a date. -/
  | InvalidDateEncoding (days : Int)
  /-- Out-of-range seconds/nanoseconds for a time of day. -/
  | InvalidTimeEncoding (secs : Nat) (nano : Nat)
  /-- Out-of-range seconds/nanoseconds for a naive timestamp. -/
  | InvalidTimestampEncoding (secs : Int) (nsecs : Nat)
  /-- The embedded struct envelope is not a well-formed message. -/
  | ProstDecodeError
deriving DecidableEq, Repr

/-- Result of a decoding step: the decoded value together with the bytes that
remain in the cursor, a recoverable error, or a panic. -/
inductive DResult (α : Type) where
  | ok (val : α) (rest : List Nat)
  | err (e : ValueEncodingError)
  | panicked
deriving DecidableEq, Repr

/-- Result of a computation that does not thread a byte cursor. -/
inductive PResult (α : Type) where
  | ok (val : α)
  | err (e : ValueEncodingError)
  | panicked
deriving DecidableEq, Repr

def DResult.bind {α β : Type} : DResult α → (α → List Nat → DResult β) → DResult β
  | .ok a rest, f => f a rest
  | .err e, _ => .err e
  | .panicked, _ => .panicked

def DResult.isErr {α : Type} : DResult α → Bool
  | .err _ => true
  | _ => false

def PResult.isErr {α : Type} : PResult α → Bool
  | .err _ => true
  | _ => false

/-- Models the `bytes` crate `Buf::get_uN_le` reader (and `copy_to_slice`
followed by a little-endian reading): consumes exactly `n` bytes, panicking
when fewer than `n` bytes remain. -/
def get_le (n : Nat) (buf : List Nat) : DResult Nat :=
  if buf.length < n then .panicked else .ok (leNat (buf.take n)) (buf.drop n)

/-- Models `copy_to_slice` into a fresh `n`-byte buffer: consumes exactly the
`n` raw bytes, panicking when fewer remain. -/
def readBytes (n : Nat) (buf : List Nat) : DResult (List Nat) :=
  if buf.length < n then .panicked else .ok (buf.take n) (buf.drop n)

/-- Models `Buf::get_u8`: one byte, panicking on an empty cursor. -/
def get_u8 : List Nat → DResult Nat
  | [] => .panicked
  | b :: rest => .ok b rest

/-- A UTF-8 continuation byte (`0x80..=0xBF`). -/
def utf8Cont (b : Nat) : Bool := 128 ≤ b && b ≤ 191

/-- Lead byte of a two-byte UTF-8 sequence (`0xC2..=0xDF`). -/
def utf8Lead2 (b : Nat) : Bool := 194 ≤ b && b ≤ 223

/-- Lead byte of a three-byte UTF-8 sequence (`0xE0..=0xEF`). -/
def utf8Lead3 (b : Nat) : Bool := 224 ≤ b && b ≤ 239

/-- Lead byte of a four-byte UTF-8 sequence (`0xF0..=0xF4`). -/
def utf8Lead4 (b : Nat) : Bool := 240 ≤ b && b ≤ 244

/-- Valid second byte of a three-byte sequence: excludes overlong encodings
(lead `0xE0`) and surrogate code points (lead `0xED`). -/
def utf8Second3 (b c1 : Nat) : Bool :=
  if b = 224 then 160 ≤ c1 && c1 ≤ 191
  else if b = 237 then 128 ≤ c1 && c1 ≤ 159
  else utf8Cont c1

/-- Valid second byte of a four-byte sequence: excludes overlong encodings
(lead `0xF0`) and code points above `U+10FFFF` (lead `0xF4`). -/
def utf8Second4 (b c1 : Nat) : Bool :=
  if b = 240 then 144 ≤ c1 && c1 ≤ 191
  else if b = 244 then 128 ≤ c1 && c1 ≤ 143
  else utf8Cont c1

/-- UTF-8 validity of a byte sequence, as enforced by Rust's
`String::from_utf8` (which the source uses in `deserialize_str`). -/
def validUtf8 : List Nat → Bool
  | [] => true
  | b :: rest =>
    if b < 128 then validUtf8 rest
    else if utf8Lead2 b then
      match rest with
      | c1 :: r => utf8Cont c1 && validUtf8 r
      | [] => false
    else if utf8Lead3 b then
      match rest with
      | c1 :: c2 :: r => utf8Second3 b c1 && utf8Cont c2 && validUtf8 r
      | _ => false
    else if utf8Lead4 b then
      match rest with
      | c1 :: c2 :: c3 :: r =>
        utf8Second4 b c1 && utf8Cont c2 && utf8Cont c3 && validUtf8 r
      | _ => false
    else false

/-- Modelled from the spec: LEB128 base-128 varint encoding, the length
prefix used by the generic delimited-message envelope (prost) in which a
struct's field sub-blobs are carried.  The envelope implementation itself is
not part of the excerpt; the spec only requires "a list of length-delimited
opaque byte blobs". -/
def varintEnc (n : Nat) : List Nat :=
  if h : n < 128 then [n] else (n % 128 + 128) :: varintEnc (n / 128)
termination_by n
decreasing_by exact Nat.div_lt_self (by omega) (by omega)

/-- Modelled from the spec: parsing of a base-128 varint. -/
def parseVarint : List Nat → Option (Nat × List Nat)
  | [] => none
  | b :: rest =>
    if b < 128 then some (b, rest)
    else
      match parseVarint rest with
      | some (v, r) => some (b - 128 + 128 * v, r)
      | none => none

/-- Modelled from the spec: the generic delimited-message envelope holding one
length-delimited byte blob per struct field (prost message `StructValue` with
a single repeated `bytes` field, tag byte `0x0A`). -/
def protoEncodeBlobs : List (List Nat) → List Nat
  | [] => []
  | b :: bs => 10 :: (varintEnc b.length ++ b ++ protoEncodeBlobs bs)

/-- Modelled from the spec: decoding of the delimited-message envelope back
into the list of field sub-blobs; `none` models a prost `DecodeError`. -/
def protoDecode (buf : List Nat) : Option (List (List Nat)) :=
  match buf with
  | [] => some []
  | b :: rest =>
    if b = 10 then
      match h : parseVarint rest with
      | some (len, r) =>
        if len ≤ r.length then
          match protoDecode (r.drop len) with
          | some blobs => some (r.take len :: blobs)
          | none => none
        else none
      | none => none
    else none
termination_by buf.length
decreasing_by
  have key : ∀ (l : List Nat) (v : Nat) (r : List Nat),
      parseVarint l = some (v, r) → r.length < l.length := by
    intro l
    induction l with
    | nil => intro v r hvr; simp [parseVarint] at hvr
    | cons b bs ih =>
      intro v r hvr
      simp only [parseVarint] at hvr
      split at hvr
      · cases hvr
        simp
      · cases hp : parseVarint bs with
        | none => rw [hp] at hvr; cases hvr
        | some pr =>
          obtain ⟨v', r'⟩ := pr
          rw [hp] at hvr
          cases hvr
          have := ih _ _ hp
          simp
          omega
  have := key _ _ _ h
  simp only [List.length_drop, List.length_cons]
  omega

/-- Modelled from the spec: the scalar value domain of the engine's type
system (`ScalarImpl` / `ScalarRefImpl` of `common/src/types`, which is not
part of the excerpt).  Payloads are the exact components the codec reads and
writes: floats are carried as their raw IEEE-754 bit patterns (the codec only
moves bits), the decimal is its opaque 16-byte unordered serialization, the
date/time/timestamp wrappers are carried as the components the codec
serializes (`num_days_from_ce`, `timestamp`/`timestamp_subsec_nanos`,
`num_seconds_from_midnight`/`nanosecond`), and `List` stands for the scalar
discriminants that have no codec routine (the source's catch-all
`panic!` arms). -/
inductive ScalarImpl where
  | Int16 (v : Int)
  | Int32 (v : Int)
  | Int64 (v : Int)
  | Float32 (bits : Nat)
  | Float64 (bits : Nat)
  | Utf8 (bytes : List Nat)
  | Bool (v : Bool)
  | Decimal (bytes : List Nat)
  | Interval (months : Int) (days : Int) (ms : Int)
  | NaiveDate (days : Int)
  | NaiveDateTime (secs : Int) (nsecs : Nat)
  | NaiveTime (secs : Nat) (nano : Nat)
  | Struct (fields : List (Option ScalarImpl))
  | List (elems : List (Option ScalarImpl))

/-- An optional scalar value: present, or logically absent (NULL). -/
abbrev Datum := Option ScalarImpl

/-- Modelled from the spec: the schema descriptor (`DataType` of
`common/src/types`, not part of the excerpt); `List` stands for the
declared types that have no decode routine (the source's catch-all
`panic!` arm). -/
inductive DataType where
  | Int16
  | Int32
  | Int64
  | Float32
  | Float64
  | Varchar
  | Boolean
  | Decimal
  | Interval
  | Time
  | Timestamp
  | Timestampz
  | Date
  | Struct (fields : List DataType)
  | List (datatype : DataType)

/-- Modelled from the spec: the date wrapper's reconstruction rejects
out-of-range day counts; the calendar library's exact bounds are abstracted
as these constants. -/
def dateDaysValid (days : Int) : Bool :=
  decide (-95000000 ≤ days ∧ days ≤ 95000000)

/-- Modelled from the spec: the time-of-day wrapper's reconstruction rejects
out-of-range components (seconds from midnight below 86400, nanoseconds
below 2·10⁹ to allow leap seconds). -/
def timeValid (secs nano : Nat) : Bool :=
  decide (secs < 86400 ∧ nano < 2000000000)

/-- Modelled from the spec: the naive-timestamp wrapper's reconstruction
rejects out-of-range components; the calendar library's exact second bounds
are abstracted as these constants. -/
def timestampValid (secs : Int) (nsecs : Nat) : Bool :=
  decide (-8000000000000 ≤ secs ∧ secs ≤ 8000000000000 ∧ nsecs < 2000000000)

/-- The `serialize_str` routine: 4-byte little-endian byte length, then the
raw bytes (`bytes.len() as u32` truncates, hence the modulus inside
`natToLe`). -/
def serialize_str (bytes : List Nat) : List Nat :=
  natToLe 4 bytes.length ++ bytes

/-- The `serialize_interval` routine: months (i32 LE), days (i32 LE),
milliseconds (i64 LE). -/
def serialize_interval (months days ms : Int) : List Nat :=
  natToLe 4 (toUnsigned 32 months) ++ natToLe 4 (toUnsigned 32 days) ++
    natToLe 8 (toUnsigned 64 ms)

/-- The `serialize_naivedate` routine: day count (i32 LE). -/
def serialize_naivedate (days : Int) : List Nat :=
  natToLe 4 (toUnsigned 32 days)

/-- The `serialize_naivedatetime` routine: epoch seconds (i64 LE), then
sub-second nanoseconds (u32 LE). -/
def serialize_naivedatetime (secs : Int) (nsecs : Nat) : List Nat :=
  natToLe 8 (toUnsigned 64 secs) ++ natToLe 4 nsecs

/-- The `serialize_naivetime` routine: seconds from midnight (u32 LE), then
nanoseconds (u32 LE). -/
def serialize_naivetime (secs nano : Nat) : List Nat :=
  natToLe 4 secs ++ natToLe 4 nano

mutual

/-- `serialize_value`: exhaustive dispatch on the scalar discriminant.  The
catch-all arm of the source is a `panic!`.  The `Decimal` payload is already
its 16-byte `unordered_serialize` image, which `serialize_decimal` copies
verbatim.  The struct arm is `to_protobuf_owned` (one value-encoded sub-blob
per field inside the generic envelope) followed by a u32 length prefix. -/
def serialize_value : ScalarImpl → PResult (List Nat)
  | .Int16 v => .ok (natToLe 2 (toUnsigned 16 v))
  | .Int32 v => .ok (natToLe 4 (toUnsigned 32 v))
  | .Int64 v => .ok (natToLe 8 (toUnsigned 64 v))
  | .Float32 bits => .ok (natToLe 4 bits)
  | .Float64 bits => .ok (natToLe 8 bits)
  | .Utf8 bytes => .ok (serialize_str bytes)
  | .Bool v => .ok [if v then 1 else 0]
  | .Decimal bytes => .ok bytes
  | .Interval months days ms => .ok (serialize_interval months days ms)
  | .NaiveDate days => .ok (serialize_naivedate days)
  | .NaiveDateTime secs nsecs => .ok (serialize_naivedatetime secs nsecs)
  | .NaiveTime secs nano => .ok (serialize_naivetime secs nano)
  | .Struct fields =>
    match serializeFields fields with
    | .ok blobs =>
      .ok (natToLe 4 (protoEncodeBlobs blobs).length ++ protoEncodeBlobs blobs)
    | .err e => .err e
    | .panicked => .panicked
  | .List _ => .panicked
termination_by v => (sizeOf v, 0)

/-- Modelled from the spec: `StructValue::to_protobuf_owned` value-encodes
each field in declared order into one sub-blob (a NULL field becomes the
empty blob). -/
def serializeFields : List (Option ScalarImpl) → PResult (List (List Nat))
  | [] => .ok []
  | none :: fs =>
    match serializeFields fs with
    | .ok blobs => .ok ([] :: blobs)
    | .err e => .err e
    | .panicked => .panicked
  | some v :: fs =>
    match serialize_value v with
    | .ok blob =>
      match serializeFields fs with
      | .ok blobs => .ok (blob :: blobs)
      | .err e => .err e
      | .panicked => .panicked
    | .err e => .err e
    | .panicked => .panicked
termination_by fs => (sizeOf fs, 1)

end

/-- `serialize_cell`: a NULL datum writes nothing; a present datum is
dispatched to `serialize_value`.  The `Result` return is always `Ok`. -/
def serialize_cell : Datum → PResult (List Nat)
  | none => .ok []
  | some v => serialize_value v

/-- `deserialize_str`: u32 LE length prefix, that many raw bytes
(`copy_to_slice`, panicking when fewer remain), then `String::from_utf8`
(recoverable `InvalidUtf8` error on invalid bytes, never lossy). -/
def deserialize_str (buf : List Nat) : DResult (List Nat) :=
  (get_le 4 buf).bind fun len r1 =>
    (readBytes len r1).bind fun bytes r2 =>
      if validUtf8 bytes then .ok bytes r2 else .err (.InvalidUtf8 bytes)

/-- `deserialize_bool`: one byte; `1` is true, `0` is false, anything else is
a recoverable `InvalidBoolEncoding` error carrying the byte. -/
def deserialize_bool (buf : List Nat) : DResult Bool :=
  (get_u8 buf).bind fun b rest =>
    if b = 1 then .ok true rest
    else if b = 0 then .ok false rest
    else .err (.InvalidBoolEncoding b)

/-- `deserialize_decimal`: 16 raw bytes fed to `unordered_deserialize`
(modelled as the identity on the opaque 16-byte pattern). -/
def deserialize_decimal (buf : List Nat) : DResult (List Nat) :=
  readBytes 16 buf

/-- `deserialize_interval`: months (i32 LE), days (i32 LE), milliseconds
(i64 LE); `IntervalUnit::new` performs no validation. -/
def deserialize_interval (buf : List Nat) : DResult (Int × Int × Int) :=
  (get_le 4 buf).bind fun months r1 =>
    (get_le 4 r1).bind fun days r2 =>
      (get_le 8 r2).bind fun ms r3 =>
        .ok (toSigned 32 months, toSigned 32 days, toSigned 64 ms) r3

/-- `deserialize_naivetime`: seconds (u32 LE) and nanoseconds (u32 LE), then
the wrapper reconstruction which rejects out-of-range components. -/
def deserialize_naivetime (buf : List Nat) : DResult (Nat × Nat) :=
  (get_le 4 buf).bind fun secs r1 =>
    (get_le 4 r1).bind fun nano r2 =>
      if timeValid secs nano then .ok (secs, nano) r2
      else .err (.InvalidTimeEncoding secs nano)

/-- `deserialize_naivedatetime`: epoch seconds (i64 LE) and nanoseconds
(u32 LE), then the wrapper reconstruction which rejects out-of-range
components. -/
def deserialize_naivedatetime (buf : List Nat) : DResult (Int × Nat) :=
  (get_le 8 buf).bind fun secsU r1 =>
    (get_le 4 r1).bind fun nsecs r2 =>
      if timestampValid (toSigned 64 secsU) nsecs then
        .ok (toSigned 64 secsU, nsecs) r2
      else .err (.InvalidTimestampEncoding (toSigned 64 secsU) nsecs)

/-- `deserialize_naivedate`: day count (i32 LE), then the wrapper
reconstruction which rejects out-of-range day counts. -/
def deserialize_naivedate (buf : List Nat) : DResult Int :=
  (get_le 4 buf).bind fun daysU rest =>
    if dateDaysValid (toSigned 32 daysU) then .ok (toSigned 32 daysU) rest
    else .err (.InvalidDateEncoding (toSigned 32 daysU))

mutual

/-- `deserialize_value`: schema-driven dispatch; the byte layout consumed is
fixed by the expected type alone.  Always yields a present scalar on
success (the source wraps it as `Some`); the catch-all arm is a `panic!`. -/
def deserialize_value : DataType → List Nat → DResult ScalarImpl
  | .Int16, buf => (get_le 2 buf).bind fun v r => .ok (.Int16 (toSigned 16 v)) r
  | .Int32, buf => (get_le 4 buf).bind fun v r => .ok (.Int32 (toSigned 32 v)) r
  | .Int64, buf => (get_le 8 buf).bind fun v r => .ok (.Int64 (toSigned 64 v)) r
  | .Float32, buf => (get_le 4 buf).bind fun v r => .ok (.Float32 v) r
  | .Float64, buf => (get_le 8 buf).bind fun v r => .ok (.Float64 v) r
  | .Varchar, buf => (deserialize_str buf).bind fun s r => .ok (.Utf8 s) r
  | .Boolean, buf => (deserialize_bool buf).bind fun b r => .ok (.Bool b) r
  | .Decimal, buf => (deserialize_decimal buf).bind fun d r => .ok (.Decimal d) r
  | .Interval, buf =>
    (deserialize_interval buf).bind fun x r => .ok (.Interval x.1 x.2.1 x.2.2) r
  | .Time, buf => (deserialize_naivetime buf).bind fun x r => .ok (.NaiveTime x.1 x.2) r
  | .Timestamp, buf =>
    (deserialize_naivedatetime buf).bind fun x r => .ok (.NaiveDateTime x.1 x.2) r
  | .Timestampz, buf => (get_le 8 buf).bind fun v r => .ok (.Int64 (toSigned 64 v)) r
  | .Date, buf => (deserialize_naivedate buf).bind fun d r => .ok (.NaiveDate d) r
  | .Struct fields, buf =>
    (deserialize_struct fields buf).bind fun fs r => .ok (.Struct fs) r
  | .List _, _ => .panicked
termination_by t _ => (sizeOf t, 1)

/-- `deserialize_struct`: u32 LE length, that many bytes (`copy_to_slice`,
panicking when fewer remain), prost decode of the envelope (recoverable
error on malformed bytes), then the `zip_eq` pairing of sub-blobs with the
declared child types. -/
def deserialize_struct (data_type : List DataType) (buf : List Nat) :
    DResult (List (Option ScalarImpl)) :=
  (get_le 4 buf).bind fun len rest =>
    (readBytes len rest).bind fun bytes r2 =>
      match protoDecode bytes with
      | none => .err .ProstDecodeError
      | some body =>
        match zipEqDecode body data_type with
        | .ok fields => .ok fields r2
        | .err e => .err e
        | .panicked => .panicked
termination_by (sizeOf data_type, 2)

/-- The `body.iter().zip_eq(data_type.iter()).map(...).collect::<Result<_>>()`
pipeline: pairs are consumed in lockstep, a field decode error short-circuits
as that error, and `zip_eq` panics as soon as one side is exhausted before
the other.  Each sub-blob is decoded as a fresh cursor whose leftover bytes
are discarded. -/
def zipEqDecode : List (List Nat) → List DataType → PResult (List (Option ScalarImpl))
  | [], [] => .ok []
  | b :: bs, d :: ds =>
    match deserialize_value d b with
    | .ok v _ =>
      match zipEqDecode bs ds with
      | .ok fields => .ok (some v :: fields)
      | .err e => .err e
      | .panicked => .panicked
    | .err e => .err e
    | .panicked => .panicked
  | _, _ => .panicked
termination_by _ ds => (sizeOf ds, 0)

end

/-- `deserialize_cell`: the NULL check precedes any type-specific
consumption; an empty cursor yields absence for any declared type. -/
def deserialize_cell (buf : List Nat) (ty : DataType) : DResult Datum :=
  if buf.length < 1 then .ok none buf
  else
    match deserialize_value ty buf with
    | .ok v r => .ok (some v) r
    | .err e => .err e
    | .panicked => .panicked

/-- Byte length of the encoded struct envelope for a field list (0 when
serialization would panic); used only to state the u32 length-prefix
representability side condition of `wellTyped`. -/
def structBodyLen (fields : List (Option ScalarImpl)) : Nat :=
  match serializeFields fields with
  | .ok blobs => (protoEncodeBlobs blobs).length
  | .err _ => 0
  | .panicked => 0

mutual

/-- Typing of a scalar against a declared `DataType`, together with the
representation invariants of the engine's value types: machine-integer
ranges, raw float bit width, valid UTF-8 strings, the decimal's fixed
16-byte image, the calendar wrappers' component ranges, and the u32
representability of length prefixes that the layout table of the spec
assumes.  Discriminants without a codec routine are never well typed. -/
def wellTyped : DataType → ScalarImpl → Bool
  | .Int16, .Int16 v => decide (-(2 ^ 15) ≤ v ∧ v < 2 ^ 15)
  | .Int32, .Int32 v => decide (-(2 ^ 31) ≤ v ∧ v < 2 ^ 31)
  | .Int64, .Int64 v => decide (-(2 ^ 63) ≤ v ∧ v < 2 ^ 63)
  | .Float32, .Float32 bits => decide (bits < 2 ^ 32)
  | .Float64, .Float64 bits => decide (bits < 2 ^ 64)
  | .Varchar, .Utf8 bytes => validUtf8 bytes && decide (bytes.length < 2 ^ 32)
  | .Boolean, .Bool _ => true
  | .Decimal, .Decimal bytes =>
    decide (bytes.length = 16) && bytes.all fun b => decide (b < 256)
  | .Interval, .Interval months days ms =>
    decide (-(2 ^ 31) ≤ months ∧ months < 2 ^ 31 ∧ -(2 ^ 31) ≤ days ∧
      days < 2 ^ 31 ∧ -(2 ^ 63) ≤ ms ∧ ms < 2 ^ 63)
  | .Time, .NaiveTime secs nano => timeValid secs nano
  | .Timestamp, .NaiveDateTime secs nsecs => timestampValid secs nsecs
  | .Timestampz, .Int64 v => decide (-(2 ^ 63) ≤ v ∧ v < 2 ^ 63)
  | .Date, .NaiveDate days => dateDaysValid days
  | .Struct ts, .Struct fs =>
    wellTypedFields ts fs && decide (structBodyLen fs < 2 ^ 32)
  | _, _ => false
termination_by t _ => (sizeOf t, 0)

/-- Pointwise typing of a struct's fields against the declared child types;
false when the arities differ. -/
def wellTypedFields : List DataType → List (Option ScalarImpl) → Bool
  | [], [] => true
  | t :: ts, f :: fs => wellTypedDatum t f && wellTypedFields ts fs
  | _, _ => false
termination_by ts _ => (sizeOf ts, 2)

/-- Typing of an optional field value: NULL is well typed at every type. -/
def wellTypedDatum : DataType → Option ScalarImpl → Bool
  | _, none => true
  | t, some v => wellTyped t v
termination_by t _ => (sizeOf t, 1)

end

mutual

/-- Every struct field, recursively, is present (non-NULL). -/
def allPresent : ScalarImpl → Bool
  | .Struct fields => fieldsPresent fields
  | _ => true
termination_by v => sizeOf v

def fieldsPresent : List (Option ScalarImpl) → Bool
  | [] => true
  | none :: _ => false
  | some v :: fs => allPresent v && fieldsPresent fs
termination_by fs => sizeOf fs

end

mutual

/-- The scalar's discriminant, and recursively those of all its struct
fields, have a codec routine (`List` is the one that does not). -/
def handled : ScalarImpl → Bool
  | .Struct fields => fieldsHandled fields
  | .List _ => false
  | _ => true
termination_by v => sizeOf v

def fieldsHandled : List (Option ScalarImpl) → Bool
  | [] => true
  | none :: fs => fieldsHandled fs
  | some v :: fs => handled v && fieldsHandled fs
termination_by fs => sizeOf fs

end

/-- The fixed byte width of each non-length-prefixed layout in the spec's
table (0 for the length-prefixed and unsupported types). -/
def fixedWidth : DataType → Nat
  | .Int16 => 2
  | .Int32 => 4
  | .Int64 => 8
  | .Float32 => 4
  | .Float64 => 8
  | .Boolean => 1
  | .Decimal => 16
  | .Interval => 16
  | .Time => 8
  | .Timestamp => 12
  | .Timestampz => 8
  | .Date => 4
  | .Varchar => 0
  | .Struct _ => 0
  | .List _ => 0

/-- A cursor-reading computation that only inspects the prefix it consumes:
appending extra bytes to the input leaves a successful result unchanged and
passes the extra bytes through to the leftover cursor. -/
def CursorExt {α : Type} (p : List Nat → DResult α) : Prop :=
  ∀ buf v r extra, p buf = .ok v r → p (buf ++ extra) = .ok v (r ++ extra)

theorem length_natToLe (n v : Nat) : (natToLe n v).length = n := by
  induction n generalizing v with
  | zero => rfl
  | succ n ih => simp [natToLe, ih]

theorem leNat_natToLe (n v : Nat) : leNat (natToLe n v) = v % 2 ^ (8 * n) := by
  induction n generalizing v with
  | zero => simp [natToLe, leNat, Nat.mod_one]
  | succ n ih =>
    have hpow : 2 ^ (8 * (n + 1)) = 256 * 2 ^ (8 * n) := by
      rw [Nat.mul_succ, Nat.pow_add]
      ring
    rw [natToLe, leNat, ih, hpow, Nat.mod_mul]

theorem toSigned_toUnsigned (k : Nat) (i : Int)
    (hl : -(2 ^ k) ≤ i) (hu : i < 2 ^ k) :
    toSigned (k + 1) (toUnsigned (k + 1) i) = i := by
  have hW : (2 : Int) ^ (k + 1) = 2 ^ k * 2 := by ring
  have hkpos : (0 : Int) < 2 ^ k := by positivity
  have hcast : ((2 ^ (k + 1) : Nat) : Int) = 2 ^ (k + 1) := by push_cast; ring
  have hcastk : ((2 ^ k : Nat) : Int) = 2 ^ k := by push_cast; ring
  by_cases hi : 0 ≤ i
  · have hmod : i % ((2 : Int) ^ (k + 1)) = i := by
      apply Int.emod_eq_of_lt hi
      omega
    have htn : ((i.toNat : Nat) : Int) = i := Int.toNat_of_nonneg hi
    have htlt : i.toNat < 2 ^ (k + 1) := by
      have : (i.toNat : Int) < ((2 ^ (k + 1) : Nat) : Int) := by omega
      exact_mod_cast this
    have htmod : i.toNat % 2 ^ (k + 1) = i.toNat := Nat.mod_eq_of_lt htlt
    have htk : i.toNat < 2 ^ k := by
      have : (i.toNat : Int) < ((2 ^ k : Nat) : Int) := by omega
      exact_mod_cast this
    simp only [toUnsigned, toSigned, hmod, htmod, Nat.add_sub_cancel]
    rw [if_pos htk]
    exact htn
  · push_neg at hi
    have hmod : i % ((2 : Int) ^ (k + 1)) = i + 2 ^ (k + 1) := by
      have h1 : (i + 2 ^ (k + 1) * 1) % ((2 : Int) ^ (k + 1)) =
          i % ((2 : Int) ^ (k + 1)) := Int.add_mul_emod_self_left _ _ _
      rw [mul_one] at h1
      rw [← h1]
      apply Int.emod_eq_of_lt (by omega) (by omega)
    have hnn : (0 : Int) ≤ i + 2 ^ (k + 1) := by omega
    have htn : (((i + 2 ^ (k + 1)).toNat : Nat) : Int) = i + 2 ^ (k + 1) :=
      Int.toNat_of_nonneg hnn
    have htlt : (i + 2 ^ (k + 1)).toNat < 2 ^ (k + 1) := by
      have : ((i + 2 ^ (k + 1)).toNat : Int) < ((2 ^ (k + 1) : Nat) : Int) := by omega
      exact_mod_cast this
    have htmod : (i + 2 ^ (k + 1)).toNat % 2 ^ (k + 1) = (i + 2 ^ (k + 1)).toNat :=
      Nat.mod_eq_of_lt htlt
    have htk : ¬ (i + 2 ^ (k + 1)).toNat < 2 ^ k := by
      intro hc
      have : ((i + 2 ^ (k + 1)).toNat : Int) < ((2 ^ k : Nat) : Int) := by
        exact_mod_cast hc
      omega
    simp only [toUnsigned, toSigned, hmod, htmod, Nat.add_sub_cancel]
    rw [if_neg htk]
    omega

theorem natToLe_toUnsigned_roundtrip (k : Nat) (i : Int) (n : Nat)
    (hn : 8 * n = k + 1) (hl : -(2 ^ k) ≤ i) (hu : i < 2 ^ k) :
    toSigned (k + 1) (leNat (natToLe n (toUnsigned (k + 1) i))) = i := by
  rw [leNat_natToLe, hn]
  have : toUnsigned (k + 1) i % 2 ^ (k + 1) = toUnsigned (k + 1) i := by
    apply Nat.mod_eq_of_lt
    simp only [toUnsigned]
    have hWpos : (0 : Int) < 2 ^ (k + 1) := by positivity
    have hlt := Int.emod_lt_of_pos i hWpos
    have hcast : ((2 ^ (k + 1) : Nat) : Int) = 2 ^ (k + 1) := by push_cast; ring
    omega
  rw [this]
  exact toSigned_toUnsigned k i hl hu

theorem get_le_exact (n v : Nat) (rest : List Nat) :
    get_le n (natToLe n v ++ rest) = .ok (v % 2 ^ (8 * n)) rest := by
  have hlen : (natToLe n v).length = n := length_natToLe n v
  simp only [get_le, List.length_append, hlen]
  rw [if_neg (by omega), List.take_left' hlen, List.drop_left' hlen, leNat_natToLe]

theorem readBytes_exact (xs rest : List Nat) :
    readBytes xs.length (xs ++ rest) = .ok xs rest := by
  simp only [readBytes, List.length_append]
  rw [if_neg (by omega)]
  rw [List.take_left, List.drop_left]

theorem get_le_panicked_iff (n : Nat) (buf : List Nat) :
    get_le n buf = .panicked ↔ buf.length < n := by
  simp only [get_le]
  split <;> simp_all

theorem get_le_ok (n : Nat) (buf : List Nat) (h : n ≤ buf.length) :
    get_le n buf = .ok (leNat (buf.take n)) (buf.drop n) := by
  simp only [get_le]
  rw [if_neg (by omega)]

theorem get_le_ext {n : Nat} {buf : List Nat} {v : Nat} {r extra : List Nat}
    (h : get_le n buf = .ok v r) :
    get_le n (buf ++ extra) = .ok v (r ++ extra) := by
  simp only [get_le] at h ⊢
  split at h
  · cases h
  · rename_i hle
    cases h
    rw [if_neg (by simp; omega)]
    rw [List.take_append_of_le_length (by omega), List.drop_append_of_le_length (by omega)]

theorem readBytes_ext {n : Nat} {buf : List Nat} {v : List Nat} {r extra : List Nat}
    (h : readBytes n buf = .ok v r) :
    readBytes n (buf ++ extra) = .ok v (r ++ extra) := by
  simp only [readBytes] at h ⊢
  split at h
  · cases h
  · rename_i hle
    cases h
    rw [if_neg (by simp; omega)]
    rw [List.take_append_of_le_length (by omega), List.drop_append_of_le_length (by omega)]

theorem parseVarint_varintEnc (n : Nat) (rest : List Nat) :
    parseVarint (varintEnc n ++ rest) = some (n, rest) := by
  induction n using Nat.strong_induction_on with
  | _ n ih =>
    by_cases h : n < 128
    · rw [varintEnc, dif_pos h]
      simp [parseVarint, h]
    · rw [varintEnc, dif_neg h]
      have hdiv : n / 128 < n := Nat.div_lt_self (by omega) (by omega)
      have hih := ih (n / 128) hdiv
      rw [List.cons_append, parseVarint]
      rw [if_neg (by omega)]
      simp only [List.append_eq] at hih ⊢
      rw [hih]
      have heq := Nat.mod_add_div n 128
      simp
      omega

theorem protoDecode_protoEncodeBlobs (blobs : List (List Nat)) :
    protoDecode (protoEncodeBlobs blobs) = some blobs := by
  induction blobs with
  | nil => simp [protoEncodeBlobs, protoDecode]
  | cons b bs ih =>
    rw [protoEncodeBlobs, protoDecode]
    simp only [if_pos rfl]
    rw [List.append_assoc, parseVarint_varintEnc]
    simp only
    rw [List.take_left, List.drop_left, ih]
    simp [List.length_append]

@[simp] theorem DResult.ok_bind {α β : Type} (a : α) (rest : List Nat)
    (f : α → List Nat → DResult β) : (DResult.ok a rest).bind f = f a rest := rfl

@[simp] theorem DResult.err_bind {α β : Type} (e : ValueEncodingError)
    (f : α → List Nat → DResult β) : (DResult.err e).bind f = .err e := rfl

@[simp] theorem DResult.panicked_bind {α β : Type}
    (f : α → List Nat → DResult β) : (DResult.panicked).bind f = .panicked := rfl

theorem cursorExt_get_le (n : Nat) : CursorExt (get_le n) := by
  intro buf v r extra h
  exact get_le_ext h

theorem cursorExt_readBytes (n : Nat) : CursorExt (readBytes n) := by
  intro buf v r extra h
  exact readBytes_ext h

theorem cursorExt_get_u8 : CursorExt get_u8 := by
  intro buf v r extra h
  cases buf with
  | nil => cases h
  | cons b rest => cases h; rfl

theorem cursorExt_ok {α : Type} (a : α) : CursorExt fun rest => DResult.ok a rest := by
  intro buf v r extra h
  cases h
  rfl

theorem cursorExt_bind {α β : Type} {p : List Nat → DResult α}
    {f : α → List Nat → DResult β} (hp : CursorExt p)
    (hf : ∀ a, CursorExt (f a)) :
    CursorExt fun buf => (p buf).bind f := by
  intro buf v r extra h
  simp only at h ⊢
  cases hpb : p buf with
  | ok a r1 =>
    rw [hpb] at h
    rw [hp buf a r1 extra hpb]
    exact hf a r1 v r extra h
  | err e => rw [hpb] at h; cases h
  | panicked => rw [hpb] at h; cases h

theorem cursorExt_deserialize_str : CursorExt deserialize_str := by
  unfold deserialize_str
  apply cursorExt_bind (cursorExt_get_le 4)
  intro len
  apply cursorExt_bind (cursorExt_readBytes len)
  intro bytes buf v r extra h
  simp only at h ⊢
  by_cases hc : validUtf8 bytes = true
  · rw [if_pos hc] at h ⊢
    cases h
    rfl
  · rw [if_neg hc] at h
    cases h

theorem cursorExt_deserialize_bool : CursorExt deserialize_bool := by
  unfold deserialize_bool
  apply cursorExt_bind cursorExt_get_u8
  intro b buf v r extra h
  simp only at h ⊢
  by_cases h1 : b = 1
  · rw [if_pos h1] at h ⊢
    cases h
    rfl
  · rw [if_neg h1] at h ⊢
    by_cases h0 : b = 0
    · rw [if_pos h0] at h ⊢
      cases h
      rfl
    · rw [if_neg h0] at h
      cases h

theorem cursorExt_deserialize_decimal : CursorExt deserialize_decimal := by
  unfold deserialize_decimal
  exact cursorExt_readBytes 16

theorem cursorExt_deserialize_interval : CursorExt deserialize_interval := by
  unfold deserialize_interval
  apply cursorExt_bind (cursorExt_get_le 4)
  intro months
  apply cursorExt_bind (cursorExt_get_le 4)
  intro days
  apply cursorExt_bind (cursorExt_get_le 8)
  intro ms
  exact cursorExt_ok _

theorem cursorExt_deserialize_naivetime : CursorExt deserialize_naivetime := by
  unfold deserialize_naivetime
  apply cursorExt_bind (cursorExt_get_le 4)
  intro secs
  apply cursorExt_bind (cursorExt_get_le 4)
  intro nano buf v r extra h
  simp only at h ⊢
  by_cases hc : timeValid secs nano = true
  · rw [if_pos hc] at h ⊢
    cases h
    rfl
  · rw [if_neg hc] at h
    cases h

theorem cursorExt_deserialize_naivedatetime : CursorExt deserialize_naivedatetime := by
  unfold deserialize_naivedatetime
  apply cursorExt_bind (cursorExt_get_le 8)
  intro secsU
  apply cursorExt_bind (cursorExt_get_le 4)
  intro nsecs buf v r extra h
  simp only at h ⊢
  by_cases hc : timestampValid (toSigned 64 secsU) nsecs = true
  · rw [if_pos hc] at h ⊢
    cases h
    rfl
  · rw [if_neg hc] at h
    cases h

theorem cursorExt_deserialize_naivedate : CursorExt deserialize_naivedate := by
  unfold deserialize_naivedate
  apply cursorExt_bind (cursorExt_get_le 4)
  intro daysU buf v r extra h
  simp only at h ⊢
  by_cases hc : dateDaysValid (toSigned 32 daysU) = true
  · rw [if_pos hc] at h ⊢
    cases h
    rfl
  · rw [if_neg hc] at h
    cases h

theorem cursorExt_deserialize_struct (ts : List DataType) :
    CursorExt (deserialize_struct ts) := by
  have hbody : deserialize_struct ts = fun buf =>
      (get_le 4 buf).bind fun len rest =>
        (readBytes len rest).bind fun bytes r2 =>
          match protoDecode bytes with
          | none => .err .ProstDecodeError
          | some body =>
            match zipEqDecode body ts with
            | .ok fields => .ok fields r2
            | .err e => .err e
            | .panicked => .panicked := by
    funext buf
    rw [deserialize_struct]
  rw [hbody]
  apply cursorExt_bind (cursorExt_get_le 4)
  intro len
  apply cursorExt_bind (cursorExt_readBytes len)
  intro bytes buf v r extra h
  simp only at h ⊢
  cases hpd : protoDecode bytes with
  | none =>
    simp only [hpd] at h
    cases h
  | some body =>
    simp only [hpd] at h ⊢
    cases hz : zipEqDecode body ts with
    | ok fields =>
      simp only [hz] at h ⊢
      cases h
      rfl
    | err e =>
      simp only [hz] at h
      cases h
    | panicked =>
      simp only [hz] at h
      cases h

theorem cursorExt_deserialize_value (ty : DataType) :
    CursorExt (deserialize_value ty) := by
  cases ty with
  | Int16 =>
    have hb : deserialize_value .Int16 = fun buf =>
        (get_le 2 buf).bind fun v r => .ok (.Int16 (toSigned 16 v)) r := by
      funext buf; rw [deserialize_value]
    rw [hb]
    exact cursorExt_bind (cursorExt_get_le 2) fun v => cursorExt_ok _
  | Int32 =>
    have hb : deserialize_value .Int32 = fun buf =>
        (get_le 4 buf).bind fun v r => .ok (.Int32 (toSigned 32 v)) r := by
      funext buf; rw [deserialize_value]
    rw [hb]
    exact cursorExt_bind (cursorExt_get_le 4) fun v => cursorExt_ok _
  | Int64 =>
    have hb : deserialize_value .Int64 = fun buf =>
        (get_le 8 buf).bind fun v r => .ok (.Int64 (toSigned 64 v)) r := by
      funext buf; rw [deserialize_value]
    rw [hb]
    exact cursorExt_bind (cursorExt_get_le 8) fun v => cursorExt_ok _
  | Float32 =>
    have hb : deserialize_value .Float32 = fun buf =>
        (get_le 4 buf).bind fun v r => .ok (.Float32 v) r := by
      funext buf; rw [deserialize_value]
    rw [hb]
    exact cursorExt_bind (cursorExt_get_le 4) fun v => cursorExt_ok _
  | Float64 =>
    have hb : deserialize_value .Float64 = fun buf =>
        (get_le 8 buf).bind fun v r => .ok (.Float64 v) r := by
      funext buf; rw [deserialize_value]
    rw [hb]
    exact cursorExt_bind (cursorExt_get_le 8) fun v => cursorExt_ok _
  | Varchar =>
    have hb : deserialize_value .Varchar = fun buf =>
        (deserialize_str buf).bind fun s r => .ok (.Utf8 s) r := by
      funext buf; rw [deserialize_value]
    rw [hb]
    exact cursorExt_bind cursorExt_deserialize_str fun s => cursorExt_ok _
  | Boolean =>
    have hb : deserialize_value .Boolean = fun buf =>
        (deserialize_bool buf).bind fun b r => .ok (.Bool b) r := by
      funext buf; rw [deserialize_value]
    rw [hb]
    exact cursorExt_bind cursorExt_deserialize_bool fun b => cursorExt_ok _
  | Decimal =>
    have hb : deserialize_value .Decimal = fun buf =>
        (deserialize_decimal buf).bind fun d r => .ok (.Decimal d) r := by
      funext buf; rw [deserialize_value]
    rw [hb]
    exact cursorExt_bind cursorExt_deserialize_decimal fun d => cursorExt_ok _
  | Interval =>
    have hb : deserialize_value .Interval = fun buf =>
        (deserialize_interval buf).bind fun x r => .ok (.Interval x.1 x.2.1 x.2.2) r := by
      funext buf; rw [deserialize_value]
    rw [hb]
    exact cursorExt_bind cursorExt_deserialize_interval fun x => cursorExt_ok _
  | Time =>
    have hb : deserialize_value .Time = fun buf =>
        (deserialize_naivetime buf).bind fun x r => .ok (.NaiveTime x.1 x.2) r := by
      funext buf; rw [deserialize_value]
    rw [hb]
    exact cursorExt_bind cursorExt_deserialize_naivetime fun x => cursorExt_ok _
  | Timestamp =>
    have hb : deserialize_value .Timestamp = fun buf =>
        (deserialize_naivedatetime buf).bind fun x r => .ok (.NaiveDateTime x.1 x.2) r := by
      funext buf; rw [deserialize_value]
    rw [hb]
    exact cursorExt_bind cursorExt_deserialize_naivedatetime fun x => cursorExt_ok _
  | Timestampz =>
    have hb : deserialize_value .Timestampz = fun buf =>
        (get_le 8 buf).bind fun v r => .ok (.Int64 (toSigned 64 v)) r := by
      funext buf; rw [deserialize_value]
    rw [hb]
    exact cursorExt_bind (cursorExt_get_le 8) fun v => cursorExt_ok _
  | Date =>
    have hb : deserialize_value .Date = fun buf =>
        (deserialize_naivedate buf).bind fun d r => .ok (.NaiveDate d) r := by
      funext buf; rw [deserialize_value]
    rw [hb]
    exact cursorExt_bind cursorExt_deserialize_naivedate fun d => cursorExt_ok _
  | Struct fields =>
    have hb : deserialize_value (.Struct fields) = fun buf =>
        (deserialize_struct fields buf).bind fun fs r => .ok (.Struct fs) r := by
      funext buf; rw [deserialize_value]
    rw [hb]
    exact cursorExt_bind (cursorExt_deserialize_struct fields) fun fs => cursorExt_ok _
  | List dt =>
    intro buf v r extra h
    rw [deserialize_value] at h
    cases h

theorem toUnsigned_lt (w : Nat) (i : Int) : toUnsigned w i < 2 ^ w := by
  simp only [toUnsigned]
  have hpos : (0 : Int) < 2 ^ w := by positivity
  have hlt := Int.emod_lt_of_pos i hpos
  have h0 := Int.emod_nonneg i (ne_of_gt hpos)
  have hcast : ((2 ^ w : Nat) : Int) = 2 ^ w := by push_cast; ring
  omega

theorem deserialize_value_nil_not_ok (ty : DataType) (v : ScalarImpl) (r : List Nat) :
    deserialize_value ty [] ≠ .ok v r := by
  cases ty <;> intro h <;>
    simp [deserialize_value, deserialize_str, deserialize_bool, deserialize_decimal,
      deserialize_interval, deserialize_naivetime, deserialize_naivedatetime,
      deserialize_naivedate, deserialize_struct, get_le, get_u8, readBytes] at h

theorem toSigned_mod_toUnsigned (k : Nat) (i : Int)
    (hl : -(2 ^ k) ≤ i) (hu : i < 2 ^ k) :
    toSigned (k + 1) (toUnsigned (k + 1) i % 2 ^ (k + 1)) = i := by
  rw [Nat.mod_eq_of_lt (toUnsigned_lt _ _)]
  exact toSigned_toUnsigned k i hl hu

theorem int16_roundtrip (x : Int) (hl : -(2 ^ 15) ≤ x) (hu : x < 2 ^ 15) :
    toSigned 16 (toUnsigned 16 x % 2 ^ 16) = x :=
  toSigned_mod_toUnsigned 15 x hl hu

theorem int32_roundtrip (x : Int) (hl : -(2 ^ 31) ≤ x) (hu : x < 2 ^ 31) :
    toSigned 32 (toUnsigned 32 x % 2 ^ 32) = x :=
  toSigned_mod_toUnsigned 31 x hl hu

theorem int64_roundtrip (x : Int) (hl : -(2 ^ 63) ≤ x) (hu : x < 2 ^ 63) :
    toSigned 64 (toUnsigned 64 x % 2 ^ 64) = x :=
  toSigned_mod_toUnsigned 63 x hl hu

theorem zipEqDecode_ok_length {bs : List (List Nat)} {ts : List DataType}
    {fs : List (Option ScalarImpl)} (h : zipEqDecode bs ts = .ok fs) :
    bs.length = ts.length ∧ fs.length = ts.length := by
  induction bs generalizing ts fs with
  | nil =>
    cases ts with
    | nil =>
      rw [zipEqDecode] at h
      cases h
      simp
    | cons t ts => simp [zipEqDecode] at h
  | cons b bs ih =>
    cases ts with
    | nil => simp [zipEqDecode] at h
    | cons t ts =>
      rw [zipEqDecode] at h
      cases hd : deserialize_value t b with
      | ok v r =>
        simp only [hd] at h
        cases hz : zipEqDecode bs ts with
        | ok fields =>
          simp only [hz] at h
          cases h
          have := ih hz
          simp
          omega
        | err e => simp only [hz] at h; cases h
        | panicked => simp only [hz] at h; cases h
      | err e => simp only [hd] at h; cases h
      | panicked => simp only [hd] at h; cases h

theorem zipEqDecode_nil_cons (t : DataType) (ts : List DataType) :
    zipEqDecode [] (t :: ts) = .panicked := by
  simp [zipEqDecode]

theorem zipEqDecode_cons_nil (b : List Nat) (bs : List (List Nat)) :
    zipEqDecode (b :: bs) [] = .panicked := by
  simp [zipEqDecode]

theorem serializeFields_noErr_of (fs : List (Option ScalarImpl))
    (H : ∀ w, some w ∈ fs → (serialize_value w).isErr = false) :
    (serializeFields fs).isErr = false := by
  induction fs with
  | nil => simp [serializeFields, PResult.isErr]
  | cons f fs ih =>
    have htail : (serializeFields fs).isErr = false :=
      ih fun w hw => H w (List.mem_cons_of_mem f hw)
    cases f with
    | none =>
      rw [serializeFields]
      cases hs : serializeFields fs with
      | ok blobs => simp [PResult.isErr]
      | err e => rw [hs] at htail; simp [PResult.isErr] at htail
      | panicked => simp [PResult.isErr]
    | some w =>
      have hw := H w (List.mem_cons_self _ _)
      rw [serializeFields]
      cases hsv : serialize_value w with
      | ok blob =>
        cases hs : serializeFields fs with
        | ok blobs => simp [PResult.isErr]
        | err e => rw [hs] at htail; simp [PResult.isErr] at htail
        | panicked => simp [PResult.isErr]
      | err e => rw [hsv] at hw; simp [PResult.isErr] at hw
      | panicked => simp [PResult.isErr]

theorem serialize_value_noErr : ∀ (n : Nat) (v : ScalarImpl), sizeOf v ≤ n →
    (serialize_value v).isErr = false := by
  intro n
  induction n with
  | zero =>
    intro v hv
    cases v <;> simp at hv
  | succ n ih =>
    intro v hv
    cases v with
    | Struct fs =>
      have hfield : ∀ w, some w ∈ fs → (serialize_value w).isErr = false := by
        intro w hw
        apply ih
        have h1 : sizeOf (some w) < sizeOf fs := List.sizeOf_lt_of_mem hw
        have h2 : sizeOf (ScalarImpl.Struct fs) = 1 + sizeOf fs := by simp
        have h3 : sizeOf (some w) = 1 + sizeOf w := by simp
        omega
      have := serializeFields_noErr_of fs hfield
      rw [serialize_value]
      cases hs : serializeFields fs with
      | ok blobs => simp [PResult.isErr]
      | err e => rw [hs] at this; simp [PResult.isErr] at this
      | panicked => simp [PResult.isErr]
    | List es => simp [serialize_value, PResult.isErr]
    | Int16 x => simp [serialize_value, PResult.isErr]
    | Int32 x => simp [serialize_value, PResult.isErr]
    | Int64 x => simp [serialize_value, PResult.isErr]
    | Float32 x => simp [serialize_value, PResult.isErr]
    | Float64 x => simp [serialize_value, PResult.isErr]
    | Utf8 x => simp [serialize_value, PResult.isErr]
    | Bool x => simp [serialize_value, PResult.isErr]
    | Decimal x => simp [serialize_value, PResult.isErr]
    | Interval a b c => simp [serialize_value, PResult.isErr]
    | NaiveDate x => simp [serialize_value, PResult.isErr]
    | NaiveDateTime a b => simp [serialize_value, PResult.isErr]
    | NaiveTime a b => simp [serialize_value, PResult.isErr]

theorem serializeFields_ok_of : ∀ (fs : List (Option ScalarImpl)) (ts : List DataType),
    (∀ t w, some w ∈ fs → wellTyped t w = true → ∃ bs, serialize_value w = .ok bs) →
    wellTypedFields ts fs = true →
    ∃ blobs, serializeFields fs = .ok blobs := by
  intro fs
  induction fs with
  | nil => intro ts H hw; exact ⟨[], by simp [serializeFields]⟩
  | cons f fs ih =>
    intro ts H hw
    cases ts with
    | nil => simp [wellTypedFields] at hw
    | cons t ts =>
      simp only [wellTypedFields, Bool.and_eq_true] at hw
      obtain ⟨blobs, hb⟩ :=
        ih ts (fun t' w hm hw' => H t' w (List.mem_cons_of_mem f hm) hw') hw.2
      cases f with
      | none => exact ⟨[] :: blobs, by simp [serializeFields, hb]⟩
      | some w =>
        have hwt : wellTyped t w = true := by
          have h1 := hw.1
          rw [wellTypedDatum] at h1
          exact h1
        obtain ⟨bs, hbs⟩ := H t w (List.mem_cons_self _ _) hwt
        exact ⟨bs :: blobs, by simp [serializeFields, hbs, hb]⟩

theorem serialize_ok_of_wellTyped : ∀ (n : Nat) (ty : DataType) (v : ScalarImpl),
    sizeOf v ≤ n → wellTyped ty v = true →
    ∃ bs, serialize_value v = .ok bs ∧ 1 ≤ bs.length := by
  intro n
  induction n with
  | zero =>
    intro ty v hv _
    cases v <;> simp at hv
  | succ n ih =>
    intro ty v hv hw
    cases v with
    | Int16 x =>
      exact ⟨natToLe 2 (toUnsigned 16 x), by simp [serialize_value],
        by simp [length_natToLe]⟩
    | Int32 x =>
      exact ⟨natToLe 4 (toUnsigned 32 x), by simp [serialize_value],
        by simp [length_natToLe]⟩
    | Int64 x =>
      exact ⟨natToLe 8 (toUnsigned 64 x), by simp [serialize_value],
        by simp [length_natToLe]⟩
    | Float32 x =>
      exact ⟨natToLe 4 x, by simp [serialize_value], by simp [length_natToLe]⟩
    | Float64 x =>
      exact ⟨natToLe 8 x, by simp [serialize_value], by simp [length_natToLe]⟩
    | Utf8 bytes =>
      refine ⟨serialize_str bytes, by simp [serialize_value], ?_⟩
      simp only [serialize_str, List.length_append, length_natToLe]
      omega
    | Bool b =>
      exact ⟨[if b then 1 else 0], by simp [serialize_value], by simp⟩
    | Decimal bytes =>
      have h16 : bytes.length = 16 := by
        cases ty <;> simp [wellTyped] at hw
        exact hw.1
      exact ⟨bytes, by simp [serialize_value], by omega⟩
    | Interval a b c =>
      exact ⟨serialize_interval a b c, by simp [serialize_value],
        by simp [serialize_interval, length_natToLe]⟩
    | NaiveDate x =>
      exact ⟨serialize_naivedate x, by simp [serialize_value],
        by simp [serialize_naivedate, length_natToLe]⟩
    | NaiveDateTime a b =>
      exact ⟨serialize_naivedatetime a b, by simp [serialize_value],
        by simp [serialize_naivedatetime, length_natToLe]⟩
    | NaiveTime a b =>
      exact ⟨serialize_naivetime a b, by simp [serialize_value],
        by simp [serialize_naivetime, length_natToLe]⟩
    | List es =>
      cases ty <;> simp [wellTyped] at hw
    | Struct fs =>
      cases ty <;> simp [wellTyped] at hw
      case Struct ts =>
        have H : ∀ t w, some w ∈ fs → wellTyped t w = true →
            ∃ bs, serialize_value w = .ok bs := by
          intro t w hm hw'
          have h1 : sizeOf (some w) < sizeOf fs := List.sizeOf_lt_of_mem hm
          have h2 : sizeOf (ScalarImpl.Struct fs) = 1 + sizeOf fs := by simp
          have h3 : sizeOf (some w) = 1 + sizeOf w := by simp
          obtain ⟨bs, hbs, _⟩ := ih t w (by omega) hw'
          exact ⟨bs, hbs⟩
        obtain ⟨blobs, hb⟩ := serializeFields_ok_of fs ts H hw.1
        refine ⟨natToLe 4 (protoEncodeBlobs blobs).length ++ protoEncodeBlobs blobs,
          by simp [serialize_value, hb], ?_⟩
        simp only [List.length_append, length_natToLe]
        omega

theorem zipEq_roundtrip_of : ∀ (fs : List (Option ScalarImpl)) (ts : List DataType),
    (∀ t w, some w ∈ fs → wellTyped t w = true → allPresent w = true →
      ∃ bs, serialize_value w = .ok bs ∧ deserialize_value t bs = .ok w []) →
    wellTypedFields ts fs = true → fieldsPresent fs = true →
    ∃ blobs, serializeFields fs = .ok blobs ∧ zipEqDecode blobs ts = .ok fs := by
  intro fs
  induction fs with
  | nil =>
    intro ts H hw hp
    cases ts with
    | nil => exact ⟨[], by simp [serializeFields], by simp [zipEqDecode]⟩
    | cons t ts => simp [wellTypedFields] at hw
  | cons f fs ih =>
    intro ts H hw hp
    cases ts with
    | nil => simp [wellTypedFields] at hw
    | cons t ts =>
      simp only [wellTypedFields, Bool.and_eq_true] at hw
      cases f with
      | none => simp [fieldsPresent] at hp
      | some w =>
        simp only [fieldsPresent, Bool.and_eq_true] at hp
        have hwt : wellTyped t w = true := by
          have h1 := hw.1
          rw [wellTypedDatum] at h1
          exact h1
        obtain ⟨bs, hsw, hdw⟩ := H t w (List.mem_cons_self _ _) hwt hp.1
        obtain ⟨blobs, hsf, hzf⟩ :=
          ih ts (fun t' w' hm hw' hp' => H t' w' (List.mem_cons_of_mem _ hm) hw' hp')
            hw.2 hp.2
        refine ⟨bs :: blobs, ?_, ?_⟩
        · simp [serializeFields, hsw, hsf]
        · simp [zipEqDecode, hdw, hzf]

theorem roundtrip_value : ∀ (n : Nat) (ty : DataType) (v : ScalarImpl), sizeOf v ≤ n →
    wellTyped ty v = true → allPresent v = true →
    ∃ bs, serialize_value v = .ok bs ∧ deserialize_value ty bs = .ok v [] := by
  intro n
  induction n with
  | zero =>
    intro ty v hv _ _
    cases v <;> simp at hv
  | succ n ih =>
    intro ty v hv hw hp
    cases v with
    | Int16 x =>
      cases ty <;> simp [wellTyped] at hw
      refine ⟨natToLe 2 (toUnsigned 16 x), by simp [serialize_value], ?_⟩
      have hg : get_le 2 (natToLe 2 (toUnsigned 16 x)) = .ok (toUnsigned 16 x % 2 ^ 16) [] := by
        simpa using get_le_exact 2 (toUnsigned 16 x) []
      have h15 : (2 : Int) ^ 15 = 32768 := by norm_num
      rw [deserialize_value, hg]
      simp only [DResult.ok_bind]
      rw [int16_roundtrip x (by omega) (by omega)]
    | Int32 x =>
      cases ty <;> simp [wellTyped] at hw
      refine ⟨natToLe 4 (toUnsigned 32 x), by simp [serialize_value], ?_⟩
      have hg : get_le 4 (natToLe 4 (toUnsigned 32 x)) = .ok (toUnsigned 32 x % 2 ^ 32) [] := by
        simpa using get_le_exact 4 (toUnsigned 32 x) []
      have h31 : (2 : Int) ^ 31 = 2147483648 := by norm_num
      rw [deserialize_value, hg]
      simp only [DResult.ok_bind]
      rw [int32_roundtrip x (by omega) (by omega)]
    | Int64 x =>
      cases ty <;> simp [wellTyped] at hw
      case Int64 =>
        refine ⟨natToLe 8 (toUnsigned 64 x), by simp [serialize_value], ?_⟩
        have hg : get_le 8 (natToLe 8 (toUnsigned 64 x)) = .ok (toUnsigned 64 x % 2 ^ 64) [] := by
          simpa using get_le_exact 8 (toUnsigned 64 x) []
        have h63 : (2 : Int) ^ 63 = 9223372036854775808 := by norm_num
        rw [deserialize_value, hg]
        simp only [DResult.ok_bind]
        rw [int64_roundtrip x (by omega) (by omega)]
      case Timestampz =>
        refine ⟨natToLe 8 (toUnsigned 64 x), by simp [serialize_value], ?_⟩
        have hg : get_le 8 (natToLe 8 (toUnsigned 64 x)) = .ok (toUnsigned 64 x % 2 ^ 64) [] := by
          simpa using get_le_exact 8 (toUnsigned 64 x) []
        have h63 : (2 : Int) ^ 63 = 9223372036854775808 := by norm_num
        rw [deserialize_value, hg]
        simp only [DResult.ok_bind]
        rw [int64_roundtrip x (by omega) (by omega)]
    | Float32 bits =>
      cases ty <;> simp [wellTyped] at hw
      refine ⟨natToLe 4 bits, by simp [serialize_value], ?_⟩
      have hg : get_le 4 (natToLe 4 bits) = .ok (bits % 2 ^ 32) [] := by
        simpa using get_le_exact 4 bits []
      have h32 : (2 : Nat) ^ 32 = 4294967296 := by norm_num
      rw [deserialize_value, hg]
      simp only [DResult.ok_bind]
      rw [Nat.mod_eq_of_lt (by omega)]
    | Float64 bits =>
      cases ty <;> simp [wellTyped] at hw
      refine ⟨natToLe 8 bits, by simp [serialize_value], ?_⟩
      have hg : get_le 8 (natToLe 8 bits) = .ok (bits % 2 ^ 64) [] := by
        simpa using get_le_exact 8 bits []
      have h64 : (2 : Nat) ^ 64 = 18446744073709551616 := by norm_num
      rw [deserialize_value, hg]
      simp only [DResult.ok_bind]
      rw [Nat.mod_eq_of_lt (by omega)]
    | Utf8 bytes =>
      cases ty <;> simp [wellTyped] at hw
      refine ⟨serialize_str bytes, by simp [serialize_value], ?_⟩
      have hds : deserialize_str (serialize_str bytes) = .ok bytes [] := by
        rw [deserialize_str]
        unfold serialize_str
        have hg : get_le 4 (natToLe 4 bytes.length ++ bytes) =
            .ok (bytes.length % 2 ^ 32) bytes := by
          simpa using get_le_exact 4 bytes.length bytes
        rw [hg]
        simp only [DResult.ok_bind]
        have h32 : (2 : Nat) ^ 32 = 4294967296 := by norm_num
        rw [Nat.mod_eq_of_lt (by omega)]
        have hrb : readBytes bytes.length bytes = .ok bytes [] := by
          simpa using readBytes_exact bytes []
        rw [hrb]
        simp only [DResult.ok_bind]
        rw [if_pos hw.1]
      rw [deserialize_value, hds]
      simp only [DResult.ok_bind]
    | Bool b =>
      cases ty <;> simp [wellTyped] at hw
      refine ⟨[if b then 1 else 0], by simp [serialize_value], ?_⟩
      cases b <;> simp [deserialize_value, deserialize_bool, get_u8]
    | Decimal bytes =>
      cases ty <;> simp [wellTyped] at hw
      refine ⟨bytes, by simp [serialize_value], ?_⟩
      have hrb : readBytes 16 bytes = .ok bytes [] := by
        have h := readBytes_exact bytes []
        rw [hw.1] at h
        simpa using h
      rw [deserialize_value]
      rw [show deserialize_decimal bytes = .ok bytes [] from hrb]
      simp only [DResult.ok_bind]
    | Interval a b c =>
      cases ty <;> simp [wellTyped] at hw
      obtain ⟨ha1, ha2, hb1, hb2, hc1, hc2⟩ := hw
      have h31 : (2 : Int) ^ 31 = 2147483648 := by norm_num
      have h63 : (2 : Int) ^ 63 = 9223372036854775808 := by norm_num
      refine ⟨serialize_interval a b c, by simp [serialize_value], ?_⟩
      rw [deserialize_value]
      have hds : deserialize_interval (serialize_interval a b c) =
          .ok (a, b, c) [] := by
        rw [deserialize_interval]
        unfold serialize_interval
        rw [List.append_assoc]
        have hg1 : get_le 4 (natToLe 4 (toUnsigned 32 a) ++
            (natToLe 4 (toUnsigned 32 b) ++ natToLe 8 (toUnsigned 64 c))) =
            .ok (toUnsigned 32 a % 2 ^ 32)
              (natToLe 4 (toUnsigned 32 b) ++ natToLe 8 (toUnsigned 64 c)) := by
          simpa using get_le_exact 4 (toUnsigned 32 a) _
        rw [hg1]
        simp only [DResult.ok_bind]
        have hg2 : get_le 4 (natToLe 4 (toUnsigned 32 b) ++ natToLe 8 (toUnsigned 64 c)) =
            .ok (toUnsigned 32 b % 2 ^ 32) (natToLe 8 (toUnsigned 64 c)) := by
          simpa using get_le_exact 4 (toUnsigned 32 b) _
        rw [hg2]
        simp only [DResult.ok_bind]
        have hg3 : get_le 8 (natToLe 8 (toUnsigned 64 c)) =
            .ok (toUnsigned 64 c % 2 ^ 64) [] := by
          simpa using get_le_exact 8 (toUnsigned 64 c) []
        rw [hg3]
        simp only [DResult.ok_bind]
        rw [int32_roundtrip a (by omega) (by omega), int32_roundtrip b (by omega) (by omega),
          int64_roundtrip c (by omega) (by omega)]
      rw [hds]
      simp only [DResult.ok_bind]
    | NaiveDate x =>
      cases ty <;> simp [wellTyped] at hw
      simp only [dateDaysValid, decide_eq_true_eq] at hw
      have h31 : (2 : Int) ^ 31 = 2147483648 := by norm_num
      have hl : -(2 ^ 31) ≤ x := by omega
      have hu : x < 2 ^ 31 := by omega
      refine ⟨serialize_naivedate x, by simp [serialize_value], ?_⟩
      rw [deserialize_value]
      have hds : deserialize_naivedate (serialize_naivedate x) = .ok x [] := by
        rw [deserialize_naivedate]
        unfold serialize_naivedate
        have hg : get_le 4 (natToLe 4 (toUnsigned 32 x)) = .ok (toUnsigned 32 x % 2 ^ 32) [] := by
          simpa using get_le_exact 4 (toUnsigned 32 x) []
        rw [hg]
        simp only [DResult.ok_bind]
        rw [int32_roundtrip x hl hu]
        rw [if_pos (by simp [dateDaysValid]; omega)]
      rw [hds]
      simp only [DResult.ok_bind]
    | NaiveDateTime a b =>
      cases ty <;> simp [wellTyped] at hw
      simp only [timestampValid, decide_eq_true_eq] at hw
      have h63 : (2 : Int) ^ 63 = 9223372036854775808 := by norm_num
      have h32 : (2 : Nat) ^ 32 = 4294967296 := by norm_num
      have hl : -(2 ^ 63) ≤ a := by omega
      have hu : a < 2 ^ 63 := by omega
      have hb32 : b < 2 ^ 32 := by omega
      refine ⟨serialize_naivedatetime a b, by simp [serialize_value], ?_⟩
      rw [deserialize_value]
      have hds : deserialize_naivedatetime (serialize_naivedatetime a b) =
          .ok (a, b) [] := by
        rw [deserialize_naivedatetime]
        unfold serialize_naivedatetime
        have hg1 : get_le 8 (natToLe 8 (toUnsigned 64 a) ++ natToLe 4 b) =
            .ok (toUnsigned 64 a % 2 ^ 64) (natToLe 4 b) := by
          simpa using get_le_exact 8 (toUnsigned 64 a) _
        rw [hg1]
        simp only [DResult.ok_bind]
        have hg2 : get_le 4 (natToLe 4 b) = .ok (b % 2 ^ 32) [] := by
          simpa using get_le_exact 4 b []
        rw [hg2]
        simp only [DResult.ok_bind]
        rw [int64_roundtrip a hl hu, Nat.mod_eq_of_lt hb32]
        rw [if_pos (by simp [timestampValid]; omega)]
      rw [hds]
      simp only [DResult.ok_bind]
    | NaiveTime a b =>
      cases ty <;> simp [wellTyped] at hw
      simp only [timeValid, decide_eq_true_eq] at hw
      have h32 : (2 : Nat) ^ 32 = 4294967296 := by norm_num
      have ha32 : a < 2 ^ 32 := by omega
      have hb32 : b < 2 ^ 32 := by omega
      refine ⟨serialize_naivetime a b, by simp [serialize_value], ?_⟩
      rw [deserialize_value]
      have hds : deserialize_naivetime (serialize_naivetime a b) = .ok (a, b) [] := by
        rw [deserialize_naivetime]
        unfold serialize_naivetime
        have hg1 : get_le 4 (natToLe 4 a ++ natToLe 4 b) =
            .ok (a % 2 ^ 32) (natToLe 4 b) := by
          simpa using get_le_exact 4 a _
        rw [hg1]
        simp only [DResult.ok_bind]
        have hg2 : get_le 4 (natToLe 4 b) = .ok (b % 2 ^ 32) [] := by
          simpa using get_le_exact 4 b []
        rw [hg2]
        simp only [DResult.ok_bind]
        rw [Nat.mod_eq_of_lt ha32, Nat.mod_eq_of_lt hb32]
        rw [if_pos (by simp [timeValid]; omega)]
      rw [hds]
      simp only [DResult.ok_bind]
    | List es =>
      cases ty <;> simp [wellTyped] at hw
    | Struct fs =>
      cases ty <;> simp [wellTyped] at hw
      case Struct ts =>
        have hfp : fieldsPresent fs = true := by
          rw [allPresent] at hp
          exact hp
        have H : ∀ t w, some w ∈ fs → wellTyped t w = true → allPresent w = true →
            ∃ bs, serialize_value w = .ok bs ∧ deserialize_value t bs = .ok w [] := by
          intro t w hm hw' hp'
          have h1 : sizeOf (some w) < sizeOf fs := List.sizeOf_lt_of_mem hm
          have h2 : sizeOf (ScalarImpl.Struct fs) = 1 + sizeOf fs := by simp
          have h3 : sizeOf (some w) = 1 + sizeOf w := by simp
          exact ih t w (by omega) hw' hp'
        obtain ⟨blobs, hsf, hzf⟩ := zipEq_roundtrip_of fs ts H hw.1 hfp
        have hbody : structBodyLen fs = (protoEncodeBlobs blobs).length := by
          rw [structBodyLen, hsf]
        refine ⟨natToLe 4 (protoEncodeBlobs blobs).length ++ protoEncodeBlobs blobs,
          by simp [serialize_value, hsf], ?_⟩
        rw [deserialize_value]
        have hds : deserialize_struct ts
            (natToLe 4 (protoEncodeBlobs blobs).length ++ protoEncodeBlobs blobs) =
            .ok fs [] := by
          rw [deserialize_struct]
          have hg : get_le 4 (natToLe 4 (protoEncodeBlobs blobs).length ++
              protoEncodeBlobs blobs) =
              .ok ((protoEncodeBlobs blobs).length % 2 ^ 32) (protoEncodeBlobs blobs) := by
            simpa using get_le_exact 4 (protoEncodeBlobs blobs).length _
          rw [hg]
          simp only [DResult.ok_bind]
          have h32 : (2 : Nat) ^ 32 = 4294967296 := by norm_num
          rw [Nat.mod_eq_of_lt (by omega)]
          have hrb : readBytes (protoEncodeBlobs blobs).length (protoEncodeBlobs blobs) =
              .ok (protoEncodeBlobs blobs) [] := by
            simpa using readBytes_exact (protoEncodeBlobs blobs) []
          rw [hrb]
          simp only [DResult.ok_bind]
          simp only [protoDecode_protoEncodeBlobs]
          rw [hzf]
        rw [hds]
        simp only [DResult.ok_bind]

theorem deserialize_cell_of_value {buf : List Nat} {ty : DataType}
    (h1 : ¬ buf.length < 1) :
    deserialize_cell buf ty =
      match deserialize_value ty buf with
      | .ok v r => .ok (some v) r
      | .err e => .err e
      | .panicked => .panicked := by
  rw [deserialize_cell, if_neg h1]

theorem get_le_bind_panicked {α : Type} {n : Nat} {buf : List Nat}
    (f : Nat → List Nat → DResult α) (h : buf.length < n) :
    (get_le n buf).bind f = .panicked := by
  rw [get_le, if_pos h]
  rfl

theorem get_le_bind_ok {α : Type} {n : Nat} {buf : List Nat}
    (f : Nat → List Nat → DResult α) (h : ¬ buf.length < n) :
    (get_le n buf).bind f = f (leNat (buf.take n)) (buf.drop n) := by
  rw [get_le, if_neg h]
  rfl

theorem readBytes_bind_panicked {α : Type} {n : Nat} {buf : List Nat}
    (f : List Nat → List Nat → DResult α) (h : buf.length < n) :
    (readBytes n buf).bind f = .panicked := by
  rw [readBytes, if_pos h]
  rfl

theorem readBytes_bind_ok {α : Type} {n : Nat} {buf : List Nat}
    (f : List Nat → List Nat → DResult α) (h : ¬ buf.length < n) :
    (readBytes n buf).bind f = f (buf.take n) (buf.drop n) := by
  rw [readBytes, if_neg h]
  rfl

theorem deserialize_value_truncated_panicked (ty : DataType) (buf : List Nat)
    (hlt : buf.length < fixedWidth ty) (hne : fixedWidth ty ≠ 0) :
    deserialize_value ty buf = .panicked := by
  cases ty with
  | Int16 =>
    simp only [fixedWidth] at hlt
    rw [deserialize_value, get_le_bind_panicked _ hlt]
  | Int32 =>
    simp only [fixedWidth] at hlt
    rw [deserialize_value, get_le_bind_panicked _ hlt]
  | Int64 =>
    simp only [fixedWidth] at hlt
    rw [deserialize_value, get_le_bind_panicked _ hlt]
  | Float32 =>
    simp only [fixedWidth] at hlt
    rw [deserialize_value, get_le_bind_panicked _ hlt]
  | Float64 =>
    simp only [fixedWidth] at hlt
    rw [deserialize_value, get_le_bind_panicked _ hlt]
  | Timestampz =>
    simp only [fixedWidth] at hlt
    rw [deserialize_value, get_le_bind_panicked _ hlt]
  | Boolean =>
    simp only [fixedWidth] at hlt
    have hnil : buf = [] := by
      cases buf with
      | nil => rfl
      | cons b rest => simp at hlt
    subst hnil
    rw [deserialize_value, deserialize_bool]
    rfl
  | Decimal =>
    simp only [fixedWidth] at hlt
    rw [deserialize_value, deserialize_decimal, readBytes_bind_panicked _ hlt]
  | Date =>
    simp only [fixedWidth] at hlt
    rw [deserialize_value, deserialize_naivedate, get_le_bind_panicked _ hlt]
    rfl
  | Interval =>
    simp only [fixedWidth] at hlt
    rw [deserialize_value, deserialize_interval]
    by_cases h4 : buf.length < 4
    · rw [get_le_bind_panicked _ h4]
      rfl
    · rw [get_le_bind_ok _ h4]
      by_cases h8 : (buf.drop 4).length < 4
      · rw [get_le_bind_panicked _ h8]
        rfl
      · rw [get_le_bind_ok _ h8]
        rw [get_le_bind_panicked _ (by simp [List.length_drop] at h8 ⊢; omega)]
        rfl
  | Time =>
    simp only [fixedWidth] at hlt
    rw [deserialize_value, deserialize_naivetime]
    by_cases h4 : buf.length < 4
    · rw [get_le_bind_panicked _ h4]
      rfl
    · rw [get_le_bind_ok _ h4]
      rw [get_le_bind_panicked _ (by simp [List.length_drop]; omega)]
      rfl
  | Timestamp =>
    simp only [fixedWidth] at hlt
    rw [deserialize_value, deserialize_naivedatetime]
    by_cases h8 : buf.length < 8
    · rw [get_le_bind_panicked _ h8]
      rfl
    · rw [get_le_bind_ok _ h8]
      rw [get_le_bind_panicked _ (by simp [List.length_drop]; omega)]
      rfl
  | Varchar => simp [fixedWidth] at hne
  | Struct ts => simp [fixedWidth] at hne
  | List dt => simp [fixedWidth] at hne

theorem deserialize_struct_ok_length {ts : List DataType} {buf : List Nat}
    {fs : List (Option ScalarImpl)} {rest : List Nat}
    (h : deserialize_struct ts buf = .ok fs rest) : fs.length = ts.length := by
  rw [deserialize_struct] at h
  cases hg : get_le 4 buf with
  | ok len r1 =>
    simp only [hg, DResult.ok_bind] at h
    cases hrb : readBytes len r1 with
    | ok bytes r2 =>
      simp only [hrb, DResult.ok_bind] at h
      cases hpd : protoDecode bytes with
      | none => simp only [hpd] at h; cases h
      | some body =>
        simp only [hpd] at h
        cases hz : zipEqDecode body ts with
        | ok fields =>
          simp only [hz] at h
          cases h
          exact (zipEqDecode_ok_length hz).2
        | err e => simp only [hz] at h; cases h
        | panicked => simp only [hz] at h; cases h
    | err e => simp only [hrb, DResult.err_bind] at h; cases h
    | panicked => simp only [hrb, DResult.panicked_bind] at h; cases h
  | err e => simp only [hg, DResult.err_bind] at h; cases h
  | panicked => simp only [hg, DResult.panicked_bind] at h; cases h

theorem deserialize_value_struct_ok {ts : List DataType} {buf : List Nat}
    {v : ScalarImpl} {rest : List Nat}
    (h : deserialize_value (.Struct ts) buf = .ok v rest) :
    ∃ fs, v = .Struct fs ∧ deserialize_struct ts buf = .ok fs rest := by
  rw [deserialize_value] at h
  cases hds : deserialize_struct ts buf with
  | ok fs r =>
    simp only [hds, DResult.ok_bind] at h
    cases h
    exact ⟨fs, rfl, rfl⟩
  | err e => simp only [hds, DResult.err_bind] at h; cases h
  | panicked => simp only [hds, DResult.panicked_bind] at h; cases h

/-- C4: NULL identity — `serialize_cell(None)` is the empty byte sequence, and
for every declared type (supported or not) `deserialize_cell` on an empty
buffer yields `None` without error: the NULL check precedes any
type-specific byte consumption. -/
theorem C4_null_identity :
    serialize_cell none = .ok [] ∧
    ∀ ty : DataType, deserialize_cell [] ty = .ok none [] := by
  constructor
  · rw [serialize_cell]
  · intro ty
    rw [deserialize_cell]
    rfl

/-- C5: non-empty non-null encoding — serializing any well-typed present
scalar succeeds and produces at least one byte, so a non-null value is never
confused with the zero-length NULL sentinel. -/
theorem C5_nonempty_encoding (ty : DataType) (v : ScalarImpl)
    (hw : wellTyped ty v = true) :
    ∃ bs, serialize_cell (some v) = .ok bs ∧ 1 ≤ bs.length := by
  obtain ⟨bs, h1, h2⟩ := serialize_ok_of_wellTyped (sizeOf v) ty v (le_refl _) hw
  refine ⟨bs, ?_, h2⟩
  rw [serialize_cell]
  exact h1

/-- C5 witness: the 16-bit integer 7 serializes to a non-empty buffer. -/
theorem C5_nonempty_encoding_witness :
    wellTyped DataType.Int16 (ScalarImpl.Int16 7) = true ∧
    ∃ bs, serialize_cell (some (ScalarImpl.Int16 7)) = .ok bs ∧ 1 ≤ bs.length :=
  ⟨by simp [wellTyped],
   C5_nonempty_encoding DataType.Int16 (ScalarImpl.Int16 7) (by simp [wellTyped])⟩

/-- C6: boolean domain — the first byte decides the boolean: `1` is true, `0`
is false, and any other byte is a reported `InvalidBoolEncoding` error
carrying the offending byte value. -/
theorem C6_bool_domain (b : Nat) (rest : List Nat) :
    deserialize_cell (b :: rest) DataType.Boolean =
      if b = 1 then .ok (some (.Bool true)) rest
      else if b = 0 then .ok (some (.Bool false)) rest
      else .err (.InvalidBoolEncoding b) := by
  rw [deserialize_cell_of_value (by simp)]
  rw [deserialize_value, deserialize_bool, get_u8]
  simp only [DResult.ok_bind]
  by_cases h1 : b = 1
  · simp [h1]
  · by_cases h0 : b = 0 <;> simp [h0, h1]

/-- C8: timestamp-with-time-zone layering — `Timestampz` has no distinct
encoding: its decode agrees with `Int64` on every buffer, reading exactly 8
bytes as a little-endian signed 64-bit integer into a plain `Int64`
scalar. -/
theorem C8_timestampz_is_int64 :
    (∀ buf, deserialize_cell buf DataType.Timestampz =
      deserialize_cell buf DataType.Int64) ∧
    (∀ buf, 8 ≤ buf.length →
      deserialize_cell buf DataType.Timestampz =
        .ok (some (.Int64 (toSigned 64 (leNat (buf.take 8))))) (buf.drop 8)) := by
  constructor
  · intro buf
    have heq : deserialize_value DataType.Timestampz buf =
        deserialize_value DataType.Int64 buf := by
      rw [deserialize_value, deserialize_value]
    rw [deserialize_cell, deserialize_cell, heq]
  · intro buf h8
    rw [deserialize_cell_of_value (by omega)]
    rw [deserialize_value, get_le_bind_ok _ (by omega)]

/-- C8 witness: a 9-byte buffer decodes as Timestampz exactly like Int64,
yielding the integer 1 with the ninth byte left over. -/
theorem C8_timestampz_is_int64_witness :
    (deserialize_cell [1, 2] DataType.Timestampz =
      deserialize_cell [1, 2] DataType.Int64) ∧
    deserialize_cell [1, 0, 0, 0, 0, 0, 0, 0, 9] DataType.Timestampz =
      .ok (some (.Int64 1)) [9] :=
  ⟨C8_timestampz_is_int64.1 [1, 2],
   C8_timestampz_is_int64.2 [1, 0, 0, 0, 0, 0, 0, 0, 9] (by simp)⟩

/-- C9: `serialize_cell` never returns an `Err` value (its `Result` success
path is vacuous), and a scalar discriminant without a codec routine panics
rather than producing an `Err`. -/
theorem C9_serialize_never_err :
    (∀ d : Datum, (serialize_cell d).isErr = false) ∧
    (∀ elems, serialize_cell (some (.List elems)) = .panicked) := by
  constructor
  · intro d
    cases d with
    | none => rw [serialize_cell]; rfl
    | some v =>
      rw [serialize_cell]
      exact serialize_value_noErr (sizeOf v) v (le_refl _)
  · intro elems
    rw [serialize_cell, serialize_value]

/-- C10: trailing bytes are ignored — a successful non-null decode consumes
exactly the bytes its type's layout dictates: appending surplus bytes leaves
the decoded value unchanged and the surplus unread, never causing an
error. -/
theorem C10_trailing_bytes_ignored (ty : DataType) (buf : List Nat)
    (s : ScalarImpl) (rest extra : List Nat)
    (h : deserialize_cell buf ty = .ok (some s) rest) :
    deserialize_cell (buf ++ extra) ty = .ok (some s) (rest ++ extra) := by
  rw [deserialize_cell] at h
  by_cases hlen : buf.length < 1
  · rw [if_pos hlen] at h
    simp at h
  · rw [if_neg hlen] at h
    cases hd : deserialize_value ty buf with
    | ok v r =>
      simp only [hd] at h
      simp only [DResult.ok.injEq, Option.some.injEq] at h
      obtain ⟨hvs, hrr⟩ := h
      subst hvs hrr
      have hext := cursorExt_deserialize_value ty buf v r extra hd
      rw [deserialize_cell, if_neg (by simp only [List.length_append]; omega), hext]
    | err e => simp only [hd] at h; cases h
    | panicked => simp only [hd] at h; cases h

/-- C10 witness: the Int16 encoding of 7 followed by a surplus byte decodes
to 7 with the surplus byte remaining. -/
theorem C10_trailing_bytes_ignored_witness :
    deserialize_cell ([7, 0] ++ [9]) DataType.Int16 = .ok (some (.Int16 7)) [9] :=
  C10_trailing_bytes_ignored DataType.Int16 [7, 0] (ScalarImpl.Int16 7) [] [9]
    (by simp [deserialize_cell, deserialize_value, get_le, leNat, toSigned])

/-- C1 counterexample: the claim fails as stated — the well-typed struct
value with one NULL field serializes to 6 bytes whose decode panics (the
NULL field's empty sub-blob is fed to `deserialize_value`, whose fixed-width
read panics), so decoding does not yield `Some(v)`. -/
theorem C1_roundtrip_counterexample :
    wellTyped (DataType.Struct [DataType.Int16]) (ScalarImpl.Struct [none]) = true ∧
    serialize_cell (some (ScalarImpl.Struct [none])) = .ok [2, 0, 0, 0, 10, 0] ∧
    deserialize_cell [2, 0, 0, 0, 10, 0] (DataType.Struct [DataType.Int16]) =
      .panicked := by
  refine ⟨?_, ?_, ?_⟩
  · simp [wellTyped, wellTypedFields, wellTypedDatum, structBodyLen, serializeFields,
      protoEncodeBlobs, varintEnc]
  · simp [serialize_cell, serialize_value, serializeFields, protoEncodeBlobs,
      varintEnc, natToLe]
  · simp [deserialize_cell, deserialize_value, deserialize_struct, zipEqDecode,
      get_le, readBytes, DResult.bind, leNat, protoDecode, parseVarint]

/-- C1 (amended): round trip — for every supported type and well-typed value
all of whose struct fields are recursively present (non-NULL), serializing
and then deserializing with the same type yields `Some(v)` with the cursor
fully consumed. -/
theorem C1_roundtrip (ty : DataType) (v : ScalarImpl)
    (hw : wellTyped ty v = true) (hp : allPresent v = true) :
    ∃ bs, serialize_cell (some v) = .ok bs ∧
      deserialize_cell bs ty = .ok (some v) [] := by
  obtain ⟨bs, hs, hd⟩ := roundtrip_value (sizeOf v) ty v (le_refl _) hw hp
  refine ⟨bs, ?_, ?_⟩
  · rw [serialize_cell]
    exact hs
  · have hne : ¬ bs.length < 1 := by
      intro hlt
      have hnil : bs = [] := by
        cases bs with
        | nil => rfl
        | cons b r => simp at hlt
      rw [hnil] at hd
      exact deserialize_value_nil_not_ok ty v [] hd
    rw [deserialize_cell_of_value hne, hd]

/-- C1 witness: the one-field struct holding the 16-bit integer 7 round
trips through the codec with an empty leftover cursor. -/
theorem C1_roundtrip_witness :
    wellTyped (DataType.Struct [DataType.Int16])
      (ScalarImpl.Struct [some (ScalarImpl.Int16 7)]) = true ∧
    allPresent (ScalarImpl.Struct [some (ScalarImpl.Int16 7)]) = true ∧
    ∃ bs, serialize_cell (some (ScalarImpl.Struct [some (ScalarImpl.Int16 7)])) =
        .ok bs ∧
      deserialize_cell bs (DataType.Struct [DataType.Int16]) =
        .ok (some (ScalarImpl.Struct [some (ScalarImpl.Int16 7)])) [] :=
  ⟨by simp [wellTyped, wellTypedFields, wellTypedDatum, structBodyLen, serializeFields,
      serialize_value, protoEncodeBlobs, varintEnc, natToLe, toUnsigned],
   by simp [allPresent, fieldsPresent],
   C1_roundtrip (DataType.Struct [DataType.Int16])
     (ScalarImpl.Struct [some (ScalarImpl.Int16 7)])
     (by simp [wellTyped, wellTypedFields, wellTypedDatum, structBodyLen, serializeFields,
       serialize_value, protoEncodeBlobs, varintEnc, natToLe, toUnsigned])
     (by simp [allPresent, fieldsPresent])⟩

/-- C2 counterexample: the claim fails as stated — deserializing an Int16
from a single byte panics (the `bytes` crate getter aborts on underflow)
instead of returning a recoverable reported error. -/
theorem C2_truncation_counterexample :
    deserialize_cell [0] DataType.Int16 = .panicked ∧
    (deserialize_cell [0] DataType.Int16).isErr = false := by
  constructor
  · simp [deserialize_cell, deserialize_value, get_le, DResult.bind]
  · simp [deserialize_cell, deserialize_value, get_le, DResult.bind, DResult.isErr]

/-- C2 (amended): truncation panics — for every type, a non-empty buffer
shorter than the fixed layout width panics; for the length-prefixed types
(text, struct), a declared length exceeding the remaining bytes panics at
the raw copy.  The panic is a bounds-checked abort, never an out-of-bounds
read, but it is not returned as a recoverable error. -/
theorem C2_truncation_panics :
    (∀ ty buf, 0 < buf.length → buf.length < fixedWidth ty →
      deserialize_cell buf ty = .panicked) ∧
    (∀ (len : Nat) (rest : List Nat), len < 2 ^ 32 → rest.length < len →
      deserialize_cell (natToLe 4 len ++ rest) DataType.Varchar = .panicked) ∧
    (∀ (ts : List DataType) (len : Nat) (rest : List Nat), len < 2 ^ 32 →
      rest.length < len →
      deserialize_cell (natToLe 4 len ++ rest) (DataType.Struct ts) = .panicked) := by
  refine ⟨?_, ?_, ?_⟩
  · intro ty buf h0 hlt
    have hne : fixedWidth ty ≠ 0 := by omega
    rw [deserialize_cell_of_value (by omega),
      deserialize_value_truncated_panicked ty buf hlt hne]
  · intro len rest h32 hlt
    have hg : get_le 4 (natToLe 4 len ++ rest) = .ok (len % 2 ^ 32) rest := by
      simpa using get_le_exact 4 len rest
    have hv : deserialize_value DataType.Varchar (natToLe 4 len ++ rest) =
        .panicked := by
      rw [deserialize_value, deserialize_str, hg]
      simp only [DResult.ok_bind]
      rw [Nat.mod_eq_of_lt h32]
      rw [readBytes_bind_panicked _ hlt]
      rfl
    rw [deserialize_cell_of_value (by simp [length_natToLe]), hv]
  · intro ts len rest h32 hlt
    have hg : get_le 4 (natToLe 4 len ++ rest) = .ok (len % 2 ^ 32) rest := by
      simpa using get_le_exact 4 len rest
    have hv : deserialize_value (DataType.Struct ts) (natToLe 4 len ++ rest) =
        .panicked := by
      rw [deserialize_value, deserialize_struct, hg]
      simp only [DResult.ok_bind]
      rw [Nat.mod_eq_of_lt h32]
      rw [readBytes_bind_panicked _ hlt]
      rfl
    rw [deserialize_cell_of_value (by simp [length_natToLe]), hv]

/-- C2 witness: a 3-byte buffer for the 8-byte Time layout panics, a text
with declared length 5 but 2 payload bytes panics, and a struct with
declared envelope length 1 but no payload bytes panics. -/
theorem C2_truncation_panics_witness :
    deserialize_cell [1, 2, 3] DataType.Time = .panicked ∧
    deserialize_cell (natToLe 4 5 ++ [1, 2]) DataType.Varchar = .panicked ∧
    deserialize_cell (natToLe 4 1 ++ []) (DataType.Struct []) = .panicked :=
  ⟨C2_truncation_panics.1 DataType.Time [1, 2, 3] (by simp) (by simp [fixedWidth]),
   C2_truncation_panics.2.1 5 [1, 2] (by norm_num) (by simp),
   C2_truncation_panics.2.2 [] 1 [] (by norm_num) (by simp)⟩

/-- C3 counterexample: the claim fails as stated — a struct envelope holding
one sub-blob decoded against a two-field schema panics (`zip_eq` aborts when
one side is exhausted) instead of returning a reported recoverable error. -/
theorem C3_struct_arity_counterexample :
    deserialize_cell [4, 0, 0, 0, 10, 2, 7, 0]
      (DataType.Struct [DataType.Int16, DataType.Int16]) = .panicked ∧
    (deserialize_cell [4, 0, 0, 0, 10, 2, 7, 0]
      (DataType.Struct [DataType.Int16, DataType.Int16])).isErr = false := by
  constructor
  · simp [deserialize_cell, deserialize_value, deserialize_struct, zipEqDecode,
      get_le, readBytes, DResult.bind, leNat, protoDecode, parseVarint, toSigned]
  · simp [deserialize_cell, deserialize_value, deserialize_struct, zipEqDecode,
      get_le, readBytes, DResult.bind, leNat, protoDecode, parseVarint, toSigned,
      DResult.isErr]

/-- C3 (amended): struct arity mismatch is never a silent truncation — a
successful struct decode always has exactly as many fields as the schema
declares — and when the `zip_eq` pairing exhausts one sequence while the
other is non-empty it panics rather than reporting a recoverable error. -/
theorem C3_struct_arity :
    (∀ (ts : List DataType) (buf : List Nat) (fs : List (Option ScalarImpl))
      (rest : List Nat),
      deserialize_cell buf (DataType.Struct ts) = .ok (some (.Struct fs)) rest →
      fs.length = ts.length) ∧
    (∀ (bs : List (List Nat)) (ts : List DataType),
      (bs = [] ∧ ts ≠ []) ∨ (bs ≠ [] ∧ ts = []) → zipEqDecode bs ts = .panicked) := by
  constructor
  · intro ts buf fs rest h
    rw [deserialize_cell] at h
    by_cases hlen : buf.length < 1
    · rw [if_pos hlen] at h
      simp at h
    · rw [if_neg hlen] at h
      cases hd : deserialize_value (DataType.Struct ts) buf with
      | ok v r =>
        simp only [hd] at h
        simp only [DResult.ok.injEq, Option.some.injEq] at h
        obtain ⟨hv, hr⟩ := h
        obtain ⟨fs', hfs', hds⟩ := deserialize_value_struct_ok hd
        rw [hfs'] at hv
        cases hv
        exact deserialize_struct_ok_length hds
      | err e => simp only [hd] at h; cases h
      | panicked => simp only [hd] at h; cases h
  · intro bs ts hcase
    rcases hcase with ⟨hb, ht⟩ | ⟨hb, ht⟩
    · subst hb
      cases ts with
      | nil => exact absurd rfl ht
      | cons t ts => exact zipEqDecode_nil_cons t ts
    · subst ht
      cases bs with
      | nil => exact absurd rfl hb
      | cons b bs => exact zipEqDecode_cons_nil b bs

/-- C3 witness: a one-blob envelope decoded against the one-field schema
succeeds with matching arity, and `zip_eq` on an empty blob list against a
one-type schema panics. -/
theorem C3_struct_arity_witness :
    ([some (ScalarImpl.Int16 7)] : List (Option ScalarImpl)).length =
      ([DataType.Int16] : List DataType).length ∧
    zipEqDecode [] [DataType.Int16] = .panicked :=
  ⟨C3_struct_arity.1 [DataType.Int16] [4, 0, 0, 0, 10, 2, 7, 0]
      [some (ScalarImpl.Int16 7)] []
      (by simp [deserialize_cell, deserialize_value, deserialize_struct, zipEqDecode,
        get_le, readBytes, DResult.bind, leNat, protoDecode, parseVarint, toSigned]),
   C3_struct_arity.2 [] [DataType.Int16] (Or.inl ⟨rfl, by simp⟩)⟩

/-- C7: UTF-8 validity — decoding a text whose length-prefixed payload is not
valid UTF-8 is a reported `InvalidUtf8` error carrying the offending bytes;
a valid payload is returned byte-for-byte (never lossy). -/
theorem C7_utf8_validity (len : Nat) (rest : List Nat)
    (h32 : len < 2 ^ 32) (hle : len ≤ rest.length) :
    (validUtf8 (rest.take len) = false →
      deserialize_cell (natToLe 4 len ++ rest) DataType.Varchar =
        .err (.InvalidUtf8 (rest.take len))) ∧
    (validUtf8 (rest.take len) = true →
      deserialize_cell (natToLe 4 len ++ rest) DataType.Varchar =
        .ok (some (.Utf8 (rest.take len))) (rest.drop len)) := by
  have hne : ¬ (natToLe 4 len ++ rest).length < 1 := by
    simp [length_natToLe]
  have hg : get_le 4 (natToLe 4 len ++ rest) = .ok (len % 2 ^ 32) rest := by
    simpa using get_le_exact 4 len rest
  constructor
  · intro hbad
    have hv : deserialize_value DataType.Varchar (natToLe 4 len ++ rest) =
        .err (.InvalidUtf8 (rest.take len)) := by
      rw [deserialize_value, deserialize_str, hg]
      simp only [DResult.ok_bind]
      rw [Nat.mod_eq_of_lt h32, readBytes_bind_ok _ (by omega)]
      rw [if_neg (by simp [hbad])]
      rfl
    rw [deserialize_cell_of_value hne, hv]
  · intro hgood
    have hv : deserialize_value DataType.Varchar (natToLe 4 len ++ rest) =
        .ok (.Utf8 (rest.take len)) (rest.drop len) := by
      rw [deserialize_value, deserialize_str, hg]
      simp only [DResult.ok_bind]
      rw [Nat.mod_eq_of_lt h32, readBytes_bind_ok _ (by omega)]
      rw [if_pos hgood]
      rfl
    rw [deserialize_cell_of_value hne, hv]

/-- C7 witness: byte 0xFF is rejected as invalid UTF-8 carrying the byte,
while byte 0x68 decodes losslessly. -/
theorem C7_utf8_validity_witness :
    deserialize_cell (natToLe 4 1 ++ [255]) DataType.Varchar =
      .err (.InvalidUtf8 [255]) ∧
    deserialize_cell (natToLe 4 1 ++ [104]) DataType.Varchar =
      .ok (some (.Utf8 [104])) [] :=
  ⟨(C7_utf8_validity 1 [255] (by norm_num) (by simp)).1 (by decide),
   (C7_utf8_validity 1 [104] (by norm_num) (by simp)).2 (by decide)⟩

end ValueEncoding
